import Mathlib

/-!
Verification of the lexical-statistics and cross-document comparison engine
of the DISTANT-READING repository (file src/analyze.py), as a shallow
embedding in Lean. Token sequences are Lean lists; Python sets become
Finsets; Python dicts with a fixed field layout become structures; a Python
function that can raise ZeroDivisionError is embedded with an Option result,
where the value none marks the raising execution. Float arithmetic of the
source is modelled with exact rationals; the round builtin of Python
(round half to even) is modelled exactly on rationals.
-/

/-- Round half to even (the rounding of the Python round builtin), on an
exact rational, producing an integer. -/
def rhe (q : ℚ) : ℤ :=
  if q - ⌊q⌋ < 1/2 then ⌊q⌋
  else if (1 : ℚ)/2 < q - ⌊q⌋ then ⌊q⌋ + 1
  else if ⌊q⌋ % 2 = 0 then ⌊q⌋ else ⌊q⌋ + 1

/-- Model of the Python round(x, d): round half to even at d decimal digits. -/
def roundTo (q : ℚ) (d : ℕ) : ℚ := (rhe (q * 10 ^ d) : ℚ) / 10 ^ d

/-! ### Stable sorting helpers

The source relies on the stable sorts of Python (sorted with reverse=True,
Counter.most_common, heapq.nlargest -- the latter two are documented as
equivalent to sorted(..., reverse=True) with a key). A stable descending
sort by a numeric key is embedded as an insertion sort that places an
element before the first element of strictly smaller or equal key drawn
from later positions; this is extensionally the stable sort. -/

def insertByKey {β : Type} (key : β → ℕ) (p : β) : List β → List β
  | [] => [p]
  | q :: rest => if key q ≤ key p then p :: q :: rest else q :: insertByKey key p rest

/-- Stable descending sort by a natural-number key (models the stable
sorted(items, key=..., reverse=True) of Python). -/
def sortByKeyDesc {β : Type} (key : β → ℕ) : List β → List β
  | [] => []
  | p :: rest => insertByKey key p (sortByKeyDesc key rest)

def insertAsc (x : ℕ) : List ℕ → List ℕ
  | [] => [x]
  | y :: rest => if x ≤ y then x :: y :: rest else y :: insertAsc x rest

/-- Ascending sort of naturals (models the sort inside numpy median). -/
def sortAsc : List ℕ → List ℕ
  | [] => []
  | x :: rest => insertAsc x (sortAsc rest)

/-! ### Counter in insertion order

A Python Counter built from a token list stores its keys in first-occurrence
order; most_common(n) stably sorts the (token, count) items by descending
count and takes the first n. -/

/-- Tokens of l not in seen, each kept at its first occurrence only, in
first-occurrence order. -/
def firstOccAux {α : Type} [DecidableEq α] : List α → List α → List α
  | [], _ => []
  | t :: rest, seen =>
    if t ∈ seen then firstOccAux rest seen else t :: firstOccAux rest (t :: seen)

/-- Distinct tokens of l in first-occurrence order (the key order of a
Python Counter or dict built by scanning l). -/
def firstOcc {α : Type} [DecidableEq α] (l : List α) : List α := firstOccAux l []

/-- The (token, count) items of Counter(l), in Counter insertion order. -/
def counterItems {α : Type} [DecidableEq α] (l : List α) : List (α × ℕ) :=
  (firstOcc l).map (fun t => (t, l.count t))

/-- Counter(l).most_common(n): the first n items of the stable descending
sort of the counter items by count. -/
def most_common {α : Type} [DecidableEq α] (l : List α) (n : ℕ) : List (α × ℕ) :=
  (sortByKeyDesc (fun p => p.2) (counterItems l)).take n

/-! ### TextAnalyzer.calculate_lexical_diversity and _calculate_mtld -/

/-- Loop of _calculate_mtld: walk the tokens keeping the set of distinct
tokens of the current segment (token_types), the current segment length
(i - start + 1 in the source), and the completed factor count; a factor
closes when the segment TTR drops strictly below the threshold 0.72. -/
def mtldScan {α : Type} [DecidableEq α] : List α → ℕ → Finset α → ℕ → ℕ
  | [], _, _, factors => factors
  | t :: rest, segLen, token_types, factors =>
    let token_types2 := insert t token_types
    let segLen2 := segLen + 1
    if (token_types2.card : ℚ) / (segLen2 : ℚ) < 72/100 then
      mtldScan rest 0 ∅ (factors + 1)
    else
      mtldScan rest segLen2 token_types2 factors

/-- TextAnalyzer._calculate_mtld (threshold 0.72): 0 for sequences shorter
than 50 tokens; the full length when no factor completed; otherwise total
length over factor count. -/
def _calculate_mtld {α : Type} [DecidableEq α] (tokens : List α) : ℚ :=
  if tokens.length < 50 then 0
  else
    let factors := mtldScan tokens 0 ∅ 0
    if factors = 0 then (tokens.length : ℚ)
    else (tokens.length : ℚ) / (factors : ℚ)

/-- Factor-counting scan written from the words of the spec: scan left to
right maintaining a growing segment collection of distinct tokens seen since
the last factor boundary together with the count of tokens in the current
segment; after each token compare the segment-local TTR (distinct tokens in
the segment over tokens in the segment) with the fixed threshold 0.72; when
it drops strictly below, close one factor and reset the segment. The
distinct tokens are kept here as a duplicate-free list. -/
def specFactorScan {α : Type} [DecidableEq α] : List α → List α → ℕ → ℕ → ℕ
  | [], _, _, factors => factors
  | t :: rest, seg, cnt, factors =>
    let seg2 := if t ∈ seg then seg else t :: seg
    let cnt2 := cnt + 1
    if (seg2.length : ℚ) / (cnt2 : ℚ) < 72/100 then specFactorScan rest [] 0 (factors + 1)
    else specFactorScan rest seg2 cnt2 factors

/-- Number of completed MTLD factors of a token sequence, following the spec
description of the scan. -/
def mtldFactors {α : Type} [DecidableEq α] (tokens : List α) : ℕ :=
  specFactorScan tokens [] 0 0

/-- Result record of calculate_lexical_diversity. The mtld field is an
Option: the dictionary returned on empty input carries no mtld key, which is
embedded as none. -/
structure DiversityMetrics where
  ttr : ℚ
  unique_words : ℕ
  total_words : ℕ
  mtld : Option ℚ

/-- TextAnalyzer.calculate_lexical_diversity: TTR rounded to 4 decimals,
the unique and total counts, and MTLD rounded to 2 decimals; on an empty
sequence a record with ttr 0, counts 0 and no mtld key. -/
def calculate_lexical_diversity {α : Type} [DecidableEq α] (tokens : List α) :
    DiversityMetrics :=
  let total_tokens := tokens.length
  let unique_tokens := tokens.toFinset.card
  if total_tokens = 0 then { ttr := 0, unique_words := 0, total_words := 0, mtld := none }
  else
    { ttr := roundTo ((unique_tokens : ℚ) / (total_tokens : ℚ)) 4
      unique_words := unique_tokens
      total_words := total_tokens
      mtld := some (roundTo (_calculate_mtld tokens) 2) }

/-! ### TextAnalyzer.calculate_sentence_stats and calculate_word_stats -/

/-- Number of words of a sentence: Python str.split() splits on whitespace
runs and drops empty pieces. -/
def wordCount (s : String) : ℕ :=
  ((s.split Char.isWhitespace).filter (fun piece => piece ≠ "")).length

def meanQ (l : List ℕ) : ℚ := (l.sum : ℚ) / (l.length : ℚ)

/-- numpy median: sort, take the middle element (odd length) or the mean of
the two middle elements (even length). -/
def medianQ (l : List ℕ) : ℚ :=
  let s := sortAsc l
  if l.length % 2 = 1 then ((s.getD (l.length / 2) 0 : ℕ) : ℚ)
  else (((s.getD (l.length / 2 - 1) 0 : ℕ) : ℚ) + ((s.getD (l.length / 2) 0 : ℕ) : ℚ)) / 2

/-- Population variance (numpy std squared). -/
def popVarQ (l : List ℕ) : ℚ :=
  ((l.map (fun x => ((x : ℚ) - meanQ l) ^ 2)).sum) / (l.length : ℚ)

/-- round(sqrt v, 2) computed exactly for a nonnegative rational v: with
v = a/b, 100 * sqrt(v) = sqrt(10000*a*b)/b, whose floor k is computable with
the integer square root; the half-even comparison of sqrt(10000*a*b)/b
against k + 1/2 squares both sides. Models round(numpy.std(...), 2). -/
def sqrtRound2 (v : ℚ) : ℚ :=
  let a := v.num.toNat
  let b := v.den
  let N := 10000 * a * b
  let s := Nat.sqrt N
  let k := s / b
  let h := 2 * b * k + b
  let r : ℕ :=
    if 4 * N < h ^ 2 then k
    else if h ^ 2 < 4 * N then k + 1
    else if k % 2 = 0 then k else k + 1
  (r : ℚ) / 100

/-- Result record of calculate_sentence_stats on non-empty input. -/
structure SentenceStats where
  sentence_count : ℕ
  avg_sentence_length : ℚ
  median_sentence_length : ℚ
  min_sentence_length : ℕ
  max_sentence_length : ℕ
  std_sentence_length : ℚ

/-- TextAnalyzer.calculate_sentence_stats: none embeds the empty dictionary
returned for an empty sentence list. -/
def calculate_sentence_stats (sentences : List String) : Option SentenceStats :=
  match sentences with
  | [] => none
  | s :: rest =>
    let sentence_lengths := (s :: rest).map wordCount
    some
      { sentence_count := (s :: rest).length
        avg_sentence_length := roundTo (meanQ sentence_lengths) 2
        median_sentence_length := roundTo (medianQ sentence_lengths) 2
        min_sentence_length := (sentence_lengths.tail).foldl min (wordCount s)
        max_sentence_length := (sentence_lengths.tail).foldl max (wordCount s)
        std_sentence_length := sqrtRound2 (popVarQ sentence_lengths) }

/-- Result record of calculate_word_stats on non-empty input. -/
structure WordStats where
  avg_word_length : ℚ
  median_word_length : ℚ
  long_words : ℕ
  long_word_ratio : ℚ

/-- TextAnalyzer.calculate_word_stats: none embeds the empty dictionary
returned for an empty token list; long words are those of character length
strictly greater than 6. -/
def calculate_word_stats (tokens : List String) : Option WordStats :=
  match tokens with
  | [] => none
  | t :: rest =>
    let word_lengths := (t :: rest).map String.length
    some
      { avg_word_length := roundTo (meanQ word_lengths) 2
        median_word_length := roundTo (medianQ word_lengths) 2
        long_words := (word_lengths.filter (fun w => 6 < w)).length
        long_word_ratio :=
          roundTo (((word_lengths.filter (fun w => 6 < w)).length : ℚ)
            / ((t :: rest).length : ℚ)) 4 }

/-! ### TextAnalyzer.calculate_vocabulary_overlap -/

/-- Result record of calculate_vocabulary_overlap. -/
structure VocabOverlap where
  shared_words : ℕ
  unique_to_first : ℕ
  unique_to_second : ℕ
  jaccard_similarity : ℚ
  overlap_percentage_first : ℚ
  overlap_percentage_second : ℚ
  shared_words_list : List String

/-- TextAnalyzer.calculate_vocabulary_overlap: reduce each token sequence
to its vocabulary, then Jaccard (fallback 0 for an empty union, then rounded
to 4 decimals) and the two directional overlap percentages (fallback 0 for
an empty vocabulary, otherwise rounded to 2 decimals), plus the
lexicographically sorted shared-word sample capped at 100. -/
def calculate_vocabulary_overlap (tokens1 tokens2 : List String) : VocabOverlap :=
  let vocab1 := tokens1.toFinset
  let vocab2 := tokens2.toFinset
  let shared := vocab1 ∩ vocab2
  let unique1 := vocab1 \ vocab2
  let unique2 := vocab2 \ vocab1
  let jaccard : ℚ :=
    if vocab1 ∪ vocab2 = ∅ then 0 else (shared.card : ℚ) / ((vocab1 ∪ vocab2).card : ℚ)
  { shared_words := shared.card
    unique_to_first := unique1.card
    unique_to_second := unique2.card
    jaccard_similarity := roundTo jaccard 4
    overlap_percentage_first :=
      if vocab1 = ∅ then 0 else roundTo ((shared.card : ℚ) / (vocab1.card : ℚ) * 100) 2
    overlap_percentage_second :=
      if vocab2 = ∅ then 0 else roundTo ((shared.card : ℚ) / (vocab2.card : ℚ) * 100) 2
    shared_words_list := (shared.sort (· ≤ ·)).take 100 }

/-! ### TextAnalyzer.get_top_words -/

/-- The fixed exclusion set of near-stopwords of get_top_words. -/
def common : List String :=
  ["said", "one", "upon", "like", "would", "also", "may", "must", "every", "much"]

/-- TextAnalyzer.get_top_words: optionally filter out the common words, then
Counter(tokens).most_common(n). -/
def get_top_words (tokens : List String) (n : ℕ) (exclude_common : Bool) :
    List (String × ℕ) :=
  let tokens2 :=
    if exclude_common then tokens.filter (fun t => decide (t ∉ common)) else tokens
  most_common tokens2 n

/-! ### TextAnalyzer.compare_author_vocabularies

The source iterates over the shared vocabulary, a Python set, to build
shared_freq; the iteration order of a string set is not fixed by the
language (it varies with the per-process hash seed). That order is made an
explicit parameter sharedOrder here: a run of the source corresponds to one
enumeration of the shared set. Both percentage fields divide without a
guard, so executions with an empty union or an empty first vocabulary raise
ZeroDivisionError, embedded as none. -/

/-- Entry of top_shared_words: word, count for the first corpus, count for
the second corpus. -/
structure AuthorComparison where
  plato_vocabulary_size : ℕ
  aristotle_vocabulary_size : ℕ
  shared_vocabulary : ℕ
  plato_unique : ℕ
  aristotle_unique : ℕ
  overlap_percentage : ℚ
  aristotle_uses_plato : ℚ
  top_shared_words : List (String × ℕ × ℕ)
  top_plato_unique : List (String × ℕ)
  top_aristotle_unique : List (String × ℕ)

/-- TextAnalyzer.compare_author_vocabularies. The input dictionaries are
reduced to the lists of per-document lemmatized token sequences in
dictionary iteration order; flatten models the extend-concatenation. -/
def compare_author_vocabularies (platoDocs aristotleDocs : List (List String))
    (sharedOrder : List String) : Option AuthorComparison :=
  let plato_tokens := platoDocs.flatten
  let aristotle_tokens := aristotleDocs.flatten
  let plato_vocab := plato_tokens.toFinset
  let aristotle_vocab := aristotle_tokens.toFinset
  let shared := plato_vocab ∩ aristotle_vocab
  let plato_unique := plato_vocab \ aristotle_vocab
  let aristotle_unique := aristotle_vocab \ plato_vocab
  let shared_freq : List (String × ℕ × ℕ) :=
    sharedOrder.map (fun w => (w, plato_tokens.count w, aristotle_tokens.count w))
  let top_shared := (sortByKeyDesc (fun e => e.2.1 + e.2.2) shared_freq).take 100
  if (plato_vocab ∪ aristotle_vocab) = ∅ then none
  else if plato_vocab = ∅ then none
  else some
    { plato_vocabulary_size := plato_vocab.card
      aristotle_vocabulary_size := aristotle_vocab.card
      shared_vocabulary := shared.card
      plato_unique := plato_unique.card
      aristotle_unique := aristotle_unique.card
      overlap_percentage :=
        roundTo ((shared.card : ℚ) / (((plato_vocab ∪ aristotle_vocab).card : ℕ) : ℚ) * 100) 2
      aristotle_uses_plato := roundTo ((shared.card : ℚ) / (plato_vocab.card : ℚ) * 100) 2
      top_shared_words := top_shared.take 50
      top_plato_unique :=
        most_common (plato_tokens.filter (fun t => decide (t ∈ plato_unique))) 30
      top_aristotle_unique :=
        most_common (aristotle_tokens.filter (fun t => decide (t ∈ aristotle_unique))) 30 }

/-! ### analyze_all_texts: the pairwise comparison matrix -/

/-- Key of one entry of the pairwise comparison dictionary. -/
def pairKey (id1 id2 : String) : String := id1 ++ " vs " ++ id2

/-- The index pairs visited by the double loop: for each position i, the
identifier at i against every identifier at a later position. -/
def orderedPairs : List String → List (String × String)
  | [] => []
  | x :: rest => rest.map (fun y => (x, y)) ++ orderedPairs rest

/-- The dictionary keys written by the pairwise loop, in write order. -/
def matrixKeys (ids : List String) : List String :=
  (orderedPairs ids).map (fun p => pairKey p.1 p.2)

/-- Entry count of the pairwise comparison dictionary: a Python dict
assignment to an existing key overwrites it, so the entry count is the
number of distinct keys. -/
def matrixSize (ids : List String) : ℕ := (matrixKeys ids).toFinset.card

/-! ## Helper lemmas -/

theorem rhe_nonneg {q : ℚ} (h : 0 ≤ q) : 0 ≤ rhe q := by
  have hf : 0 ≤ ⌊q⌋ := Int.floor_nonneg.mpr h
  unfold rhe
  split_ifs <;> omega

theorem rhe_le_intCast {q : ℚ} {n : ℤ} (h : q ≤ (n : ℚ)) : rhe q ≤ n := by
  have hf : ⌊q⌋ ≤ n := by
    have h2 := Int.floor_le_floor h
    rwa [Int.floor_intCast] at h2
  have key : ⌊q⌋ = n → q - (⌊q⌋ : ℚ) < 1/2 := by
    intro he
    have h5 : (⌊q⌋ : ℚ) ≤ q := Int.floor_le q
    have h6 : q ≤ (⌊q⌋ : ℚ) := by rw [he]; exact h
    have h7 : q - (⌊q⌋ : ℚ) = 0 := by linarith
    rw [h7]; norm_num
  unfold rhe
  split_ifs with h1 h2 h3
  · exact hf
  · rcases lt_or_eq_of_le hf with h4 | h4
    · omega
    · exact absurd (key h4) h1
  · exact hf
  · rcases lt_or_eq_of_le hf with h4 | h4
    · omega
    · exact absurd (key h4) h1

theorem roundTo_nonneg {q : ℚ} (d : ℕ) (h : 0 ≤ q) : 0 ≤ roundTo q d := by
  unfold roundTo
  apply div_nonneg
  · exact_mod_cast rhe_nonneg (by positivity)
  · positivity

theorem roundTo_le_one {q : ℚ} (d : ℕ) (h : q ≤ 1) : roundTo q d ≤ 1 := by
  unfold roundTo
  rw [div_le_one (by positivity)]
  have h2 : q * 10 ^ d ≤ (((10 : ℤ) ^ d : ℤ) : ℚ) := by
    push_cast
    calc q * 10 ^ d ≤ 1 * 10 ^ d := by
          apply mul_le_mul_of_nonneg_right h (by positivity)
      _ = 10 ^ d := one_mul _
  have h3 := rhe_le_intCast h2
  have h4 : ((rhe (q * 10 ^ d) : ℤ) : ℚ) ≤ (((10 : ℤ) ^ d : ℤ) : ℚ) := by exact_mod_cast h3
  calc ((rhe (q * 10 ^ d) : ℤ) : ℚ) ≤ (((10 : ℤ) ^ d : ℤ) : ℚ) := h4
    _ = 10 ^ d := by push_cast; ring

theorem roundTo_zero (d : ℕ) : roundTo 0 d = 0 := by
  have h : rhe 0 = 0 := by norm_num [rhe]
  simp [roundTo, h]

theorem roundTo_one_four : roundTo 1 4 = 1 := by
  norm_num [roundTo, rhe]

theorem toFinset_card_eq_length_iff {α : Type} [DecidableEq α] (l : List α) :
    l.toFinset.card = l.length ↔ l.Nodup := by
  constructor
  · intro h
    rw [List.card_toFinset] at h
    have hs := List.dedup_sublist l
    have he := hs.eq_of_length h
    exact he ▸ List.nodup_dedup l
  · exact fun h => List.toFinset_card_of_nodup h

theorem specFactorScan_eq_mtldScan {α : Type} [DecidableEq α] :
    ∀ (l seg : List α) (cnt factors : ℕ), seg.Nodup →
      specFactorScan l seg cnt factors = mtldScan l cnt seg.toFinset factors := by
  intro l
  induction l with
  | nil => intro seg cnt factors _; rfl
  | cons t rest ih =>
    intro seg cnt factors hnd
    simp only [specFactorScan, mtldScan]
    by_cases hmem : t ∈ seg
    · rw [if_pos hmem]
      have h1 : insert t seg.toFinset = seg.toFinset :=
        Finset.insert_eq_self.mpr (List.mem_toFinset.mpr hmem)
      rw [h1]
      rw [List.toFinset_card_of_nodup hnd]
      split_ifs with hc
      · have := ih ([] : List α) 0 (factors + 1) List.nodup_nil
        simpa using this
      · exact ih seg (cnt + 1) factors hnd
    · rw [if_neg hmem]
      have h1 : (insert t seg.toFinset).card = seg.toFinset.card + 1 :=
        Finset.card_insert_of_not_mem (fun hc => hmem (List.mem_toFinset.mp hc))
      have h2 : (t :: seg).length = seg.toFinset.card + 1 := by
        rw [List.length_cons, List.toFinset_card_of_nodup hnd]
      rw [h1, h2]
      split_ifs with hc
      · have := ih ([] : List α) 0 (factors + 1) List.nodup_nil
        simpa using this
      · have hnd2 : (t :: seg).Nodup := List.nodup_cons.mpr ⟨hmem, hnd⟩
        have := ih (t :: seg) (cnt + 1) factors hnd2
        rw [this, List.toFinset_cons]

/-- C1: for every token sequence, the MTLD computation follows the piecewise
definition of the spec: 0 below 50 tokens; with the factor count obtained by
closing a factor exactly when the segment-local TTR drops strictly below
0.72 (trailing partial segment discarded), the result is the full length
when no factor completed, and otherwise total length over factor count. -/
theorem C1_mtld_piecewise (tokens : List String) :
    _calculate_mtld tokens =
      if tokens.length < 50 then 0
      else if mtldFactors tokens = 0 then (tokens.length : ℚ)
      else (tokens.length : ℚ) / (mtldFactors tokens : ℚ) := by
  have h := specFactorScan_eq_mtldScan tokens ([] : List String) 0 0 List.nodup_nil
  unfold _calculate_mtld mtldFactors
  rw [h]
  simp only [List.toFinset_nil]

theorem mem_firstOccAux {α : Type} [DecidableEq α] :
    ∀ (l seen : List α) (a : α), a ∈ firstOccAux l seen → a ∈ l ∧ a ∉ seen := by
  intro l
  induction l with
  | nil => intro seen a h; simp [firstOccAux] at h
  | cons t rest ih =>
    intro seen a h
    simp only [firstOccAux] at h
    by_cases hmem : t ∈ seen
    · rw [if_pos hmem] at h
      have h2 := ih seen a h
      exact ⟨List.mem_cons_of_mem _ h2.1, h2.2⟩
    · rw [if_neg hmem] at h
      rcases List.mem_cons.mp h with he | h2
      · subst he; exact ⟨List.mem_cons_self _ _, hmem⟩
      · have h3 := ih _ a h2
        refine ⟨List.mem_cons_of_mem _ h3.1, fun hs => h3.2 (List.mem_cons_of_mem _ hs)⟩

theorem firstOccAux_pairwise {α : Type} [DecidableEq α] :
    ∀ (l seen : List α),
      (firstOccAux l seen).Pairwise (fun a b => l.indexOf a < l.indexOf b) := by
  intro l
  induction l with
  | nil => intro seen; simp [firstOccAux]
  | cons t rest ih =>
    intro seen
    simp only [firstOccAux]
    by_cases hmem : t ∈ seen
    · rw [if_pos hmem]
      refine (ih seen).imp_of_mem ?_
      intro a b ha hb hab
      have ha2 := mem_firstOccAux rest seen a ha
      have hb2 := mem_firstOccAux rest seen b hb
      have hat : t ≠ a := fun he => ha2.2 (he ▸ hmem)
      have hbt : t ≠ b := fun he => hb2.2 (he ▸ hmem)
      rw [List.indexOf_cons_ne rest hat, List.indexOf_cons_ne rest hbt]
      omega
    · rw [if_neg hmem]
      refine List.Pairwise.cons ?_ ?_
      · intro b hb
        have hb2 := mem_firstOccAux rest (t :: seen) b hb
        have hbt : t ≠ b := fun he => hb2.2 (he ▸ List.mem_cons_self t seen)
        rw [List.indexOf_cons_self, List.indexOf_cons_ne rest hbt]
        omega
      · refine (ih (t :: seen)).imp_of_mem ?_
        intro a b ha hb hab
        have ha2 := mem_firstOccAux rest (t :: seen) a ha
        have hb2 := mem_firstOccAux rest (t :: seen) b hb
        have hat : t ≠ a := fun he => ha2.2 (he ▸ List.mem_cons_self t seen)
        have hbt : t ≠ b := fun he => hb2.2 (he ▸ List.mem_cons_self t seen)
        rw [List.indexOf_cons_ne rest hat, List.indexOf_cons_ne rest hbt]
        omega

theorem counterItems_pairwise {α : Type} [DecidableEq α] (l : List α) :
    (counterItems l).Pairwise (fun p q => l.indexOf p.1 < l.indexOf q.1) := by
  unfold counterItems firstOcc
  rw [List.pairwise_map]
  exact firstOccAux_pairwise l []

theorem mem_insertByKey {β : Type} (key : β → ℕ) (p x : β) :
    ∀ l : List β, (x ∈ insertByKey key p l ↔ x = p ∨ x ∈ l) := by
  intro l
  induction l with
  | nil => simp [insertByKey]
  | cons q rest ih =>
    simp only [insertByKey]
    split_ifs with h
    · simp only [List.mem_cons]
    · simp only [List.mem_cons, ih]
      tauto

theorem mem_sortByKeyDesc {β : Type} (key : β → ℕ) (x : β) :
    ∀ l : List β, (x ∈ sortByKeyDesc key l ↔ x ∈ l) := by
  intro l
  induction l with
  | nil => simp [sortByKeyDesc]
  | cons p rest ih =>
    simp only [sortByKeyDesc, mem_insertByKey, ih, List.mem_cons]

theorem insertByKey_pairwise {β : Type} (key : β → ℕ) (O : β → β → Prop) (p : β) :
    ∀ l : List β,
      l.Pairwise (fun a b => key b ≤ key a ∧ (key a = key b → O a b)) →
      (∀ x ∈ l, O p x) →
      (insertByKey key p l).Pairwise (fun a b => key b ≤ key a ∧ (key a = key b → O a b)) := by
  intro l
  induction l with
  | nil => intro _ _; simp [insertByKey]
  | cons q rest ih =>
    intro hl hp
    have hq := List.pairwise_cons.mp hl
    simp only [insertByKey]
    split_ifs with hk
    · refine List.Pairwise.cons ?_ hl
      intro x hx
      rcases List.mem_cons.mp hx with he | hx2
      · subst he; exact ⟨hk, fun _ => hp _ (List.mem_cons_self _ _)⟩
      · have hqx := hq.1 x hx2
        exact ⟨le_trans hqx.1 hk, fun _ => hp x (List.mem_cons_of_mem _ hx2)⟩
    · push_neg at hk
      refine List.Pairwise.cons ?_ (ih hq.2 (fun x hx => hp x (List.mem_cons_of_mem _ hx)))
      intro x hx
      rcases (mem_insertByKey key p x rest).mp hx with he | hx2
      · subst he
        exact ⟨le_of_lt hk, fun he2 => absurd he2 (ne_of_gt hk)⟩
      · exact hq.1 x hx2

theorem sortByKeyDesc_pairwise {β : Type} (key : β → ℕ) (O : β → β → Prop) :
    ∀ l : List β, l.Pairwise O →
      (sortByKeyDesc key l).Pairwise (fun a b => key b ≤ key a ∧ (key a = key b → O a b)) := by
  intro l
  induction l with
  | nil => intro _; simp [sortByKeyDesc]
  | cons p rest ih =>
    intro h
    have hc := List.pairwise_cons.mp h
    exact insertByKey_pairwise key O p (sortByKeyDesc key rest) (ih hc.2)
      (fun x hx => hc.1 x ((mem_sortByKeyDesc key x rest).mp hx))

/-- C2: get_top_words with exclusion enabled returns at most n pairs, every
returned pair is a token outside the exclusion set together with its
positive occurrence count in the filtered sequence, the pairs are ordered by
descending count with ties broken by first-occurrence order within the
filtered sequence, and the concrete tie-break scenario from the spec holds. -/
theorem C2_get_top_words (tokens : List String) (n : ℕ) :
    ((get_top_words tokens n true).length ≤ n) ∧
    (∀ p ∈ get_top_words tokens n true,
      p.1 ∉ common ∧ p.1 ∈ tokens.filter (fun t => decide (t ∉ common)) ∧
      p.2 = (tokens.filter (fun t => decide (t ∉ common))).count p.1 ∧ 0 < p.2) ∧
    ((get_top_words tokens n true).Pairwise (fun a b => b.2 ≤ a.2 ∧
      (a.2 = b.2 → (tokens.filter (fun t => decide (t ∉ common))).indexOf a.1
        < (tokens.filter (fun t => decide (t ∉ common))).indexOf b.1))) ∧
    get_top_words ["b", "a", "b", "a", "c"] 2 true = [("b", 2), ("a", 2)] := by
  have hunfold : get_top_words tokens n true =
      (sortByKeyDesc (fun p => p.2)
        (counterItems (tokens.filter (fun t => decide (t ∉ common))))).take n := rfl
  refine ⟨?_, ?_, ?_, by decide⟩
  · rw [hunfold]
    simp [List.length_take]
  · intro p hp
    rw [hunfold] at hp
    have hp2 : p ∈ sortByKeyDesc (fun p => p.2)
        (counterItems (tokens.filter (fun t => decide (t ∉ common)))) :=
      (List.take_sublist n _).subset hp
    have hp3 := (mem_sortByKeyDesc _ p _).mp hp2
    unfold counterItems at hp3
    rcases List.mem_map.mp hp3 with ⟨t, ht, he⟩
    subst he
    have htf : t ∈ tokens.filter (fun t => decide (t ∉ common)) :=
      (mem_firstOccAux _ [] t ht).1
    refine ⟨?_, htf, rfl, List.count_pos_iff.mpr htf⟩
    exact of_decide_eq_true (List.mem_filter.mp htf).2
  · rw [hunfold]
    have hpw := sortByKeyDesc_pairwise (fun p : String × ℕ => p.2)
      (fun p q => (tokens.filter (fun t => decide (t ∉ common))).indexOf p.1
        < (tokens.filter (fun t => decide (t ∉ common))).indexOf q.1)
      (counterItems (tokens.filter (fun t => decide (t ∉ common))))
      (counterItems_pairwise _)
    exact hpw.sublist (List.take_sublist n _)

/-- C2 witness: the properties instantiated at the concrete tie-break input,
with the membership hypothesis discharged at the pair (b, 2). -/
theorem C2_get_top_words_witness :
    ("b" : String) ∉ common ∧
    ("b" : String) ∈ (["b", "a", "b", "a", "c"] : List String).filter
      (fun t => decide (t ∉ common)) ∧
    (2 : ℕ) = ((["b", "a", "b", "a", "c"] : List String).filter
      (fun t => decide (t ∉ common))).count "b" ∧ (0 : ℕ) < 2 :=
  (C2_get_top_words ["b", "a", "b", "a", "c"] 2).2.1 ("b", 2) (by decide)

/-- C3: the ranked shared-token list of the author-corpus comparison is NOT
independent of the iteration order of the unordered shared set. The two
orders below are both valid enumerations of the shared vocabulary of the two
one-document corpora (each a permutation of the shared set), yet the outputs
differ, because the two shared tokens tie on summed frequency. Since the
iteration order of a Python string set varies with the per-process hash
seed, two runs of the source on this input can produce different output. -/
theorem C3_set_iteration_order_dependence :
    (["x", "y"] : List String).Nodup ∧ (["y", "x"] : List String).Nodup ∧
    (["x", "y"] : List String).toFinset =
      ([["x", "y"]] : List (List String)).flatten.toFinset ∩
        ([["x", "y"]] : List (List String)).flatten.toFinset ∧
    (["y", "x"] : List String).toFinset =
      ([["x", "y"]] : List (List String)).flatten.toFinset ∩
        ([["x", "y"]] : List (List String)).flatten.toFinset ∧
    compare_author_vocabularies [["x", "y"]] [["x", "y"]] ["x", "y"] ≠
      compare_author_vocabularies [["x", "y"]] [["x", "y"]] ["y", "x"] := by
  refine ⟨by decide, by decide, by decide, by decide, ?_⟩
  intro hcontra
  have hfield := congrArg (fun o => Option.map (fun r => r.top_shared_words) o) hcontra
  simp only [compare_author_vocabularies] at hfield
  rw [if_neg (by decide), if_neg (by decide), if_neg (by decide), if_neg (by decide)] at hfield
  simp only [Option.map_some'] at hfield
  exact absurd hfield (by decide)

/-- C4 counterexample: on two empty document groups both vocabularies are
empty and the overlap-percentage division of compare_author_vocabularies
raises ZeroDivisionError (embedded as none), instead of returning a record
with a defined fallback as the claim states. -/
theorem C4_counterexample : compare_author_vocabularies [] [] [] = none := rfl

/-- C4 amended: compare_author_vocabularies never raises provided the first
group has a concatenated token sequence that is non-empty; it then returns a record
whose overlap percentage is round2 of shared over union times 100 and whose
asymmetric usage percentage is round2 of shared over the first vocabulary
times 100. On empty vocabularies the source divides by zero and raises. -/
theorem C4_author_comparison_defined (platoDocs aristotleDocs : List (List String))
    (sharedOrder : List String) (h : platoDocs.flatten ≠ []) :
    (compare_author_vocabularies platoDocs aristotleDocs sharedOrder).isSome = true ∧
    Option.map (fun r => r.overlap_percentage)
        (compare_author_vocabularies platoDocs aristotleDocs sharedOrder) =
      some (roundTo (((platoDocs.flatten.toFinset ∩ aristotleDocs.flatten.toFinset).card : ℚ)
        / (((platoDocs.flatten.toFinset ∪ aristotleDocs.flatten.toFinset).card : ℕ) : ℚ)
        * 100) 2) ∧
    Option.map (fun r => r.aristotle_uses_plato)
        (compare_author_vocabularies platoDocs aristotleDocs sharedOrder) =
      some (roundTo (((platoDocs.flatten.toFinset ∩ aristotleDocs.flatten.toFinset).card : ℚ)
        / (platoDocs.flatten.toFinset.card : ℚ) * 100) 2) := by
  have hv : platoDocs.flatten.toFinset ≠ ∅ := by
    simpa [List.toFinset_eq_empty_iff] using h
  have hu : platoDocs.flatten.toFinset ∪ aristotleDocs.flatten.toFinset ≠ ∅ := by
    intro he
    rw [Finset.union_eq_empty] at he
    exact hv he.1
  simp only [compare_author_vocabularies]
  rw [if_neg hu, if_neg hv]
  exact ⟨rfl, rfl, rfl⟩

/-- C4 witness: the amended statement at a concrete non-degenerate input. -/
theorem C4_author_comparison_defined_witness :
    (compare_author_vocabularies [["a"]] [] []).isSome = true ∧
    Option.map (fun r => r.overlap_percentage)
        (compare_author_vocabularies [["a"]] [] []) =
      some (roundTo (((([["a"]] : List (List String)).flatten.toFinset ∩
          (([] : List (List String))).flatten.toFinset).card : ℚ)
        / (((([["a"]] : List (List String)).flatten.toFinset ∪
          (([] : List (List String))).flatten.toFinset).card : ℕ) : ℚ) * 100) 2) ∧
    Option.map (fun r => r.aristotle_uses_plato)
        (compare_author_vocabularies [["a"]] [] []) =
      some (roundTo (((([["a"]] : List (List String)).flatten.toFinset ∩
          (([] : List (List String))).flatten.toFinset).card : ℚ)
        / ((([["a"]] : List (List String)).flatten.toFinset.card : ℕ) : ℚ) * 100) 2) :=
  C4_author_comparison_defined [["a"]] [] [] (by decide)

/-- C5 counterexample: the record returned for the empty sequence has no
mtld key (all four fields are NOT always present), and on a 30000-token
sequence with 29999 distinct tokens the 4-decimal rounding lifts the TTR to
exactly 1 although not all tokens are distinct, refuting the stated
equivalence between TTR = 1 and distinctness. -/
theorem C5_counterexample :
    (calculate_lexical_diversity ([] : List String)).mtld = none ∧
    (calculate_lexical_diversity (List.range 29999 ++ [0])).ttr = 1 ∧
    ¬ (List.range 29999 ++ [0]).Nodup := by
  refine ⟨rfl, ?_, ?_⟩
  · have hcard : (List.range 29999 ++ [0]).toFinset.card = 29999 := by
      rw [List.toFinset_append]
      have h0 : ([0] : List ℕ).toFinset = {0} := rfl
      rw [h0]
      have hsub : ({0} : Finset ℕ) ⊆ (List.range 29999).toFinset := by
        intro x hx
        rw [Finset.mem_singleton] at hx
        subst hx
        rw [List.mem_toFinset]
        exact List.mem_range.mpr (by norm_num)
      rw [Finset.union_eq_left.mpr hsub]
      rw [List.toFinset_card_of_nodup (List.nodup_range 29999)]
      exact List.length_range 29999
    have hlen : (List.range 29999 ++ [0]).length = 30000 := by
      rw [List.length_append, List.length_range]
      norm_num
    simp only [calculate_lexical_diversity]
    rw [if_neg (by rw [hlen]; norm_num)]
    show roundTo _ 4 = 1
    rw [hcard, hlen]
    norm_num [roundTo, rhe]
  · intro hnd
    rw [List.nodup_append] at hnd
    exact (hnd.2.2 (List.mem_range.mpr (by norm_num))) (List.mem_singleton.mpr rfl)

/-- C5 amended: for every non-empty token sequence the returned record has
all four fields with TTR equal to unique over total rounded to 4 decimals,
0 le TTR le 1, TTR = 1 whenever all tokens are distinct, and the unrounded
ratio equals 1 exactly when all tokens are distinct (the rounded TTR can
reach 1 on huge near-distinct sequences); on the empty sequence the record
is ttr 0, unique 0, total 0 with no mtld field and no error. -/
theorem C5_lexical_diversity (tokens : List String) (h : tokens ≠ []) :
    ((calculate_lexical_diversity tokens).mtld).isSome = true ∧
    (calculate_lexical_diversity tokens).unique_words = tokens.toFinset.card ∧
    (calculate_lexical_diversity tokens).total_words = tokens.length ∧
    (calculate_lexical_diversity tokens).ttr =
      roundTo ((tokens.toFinset.card : ℚ) / (tokens.length : ℚ)) 4 ∧
    0 ≤ (calculate_lexical_diversity tokens).ttr ∧
    (calculate_lexical_diversity tokens).ttr ≤ 1 ∧
    (tokens.Nodup → (calculate_lexical_diversity tokens).ttr = 1) ∧
    ((tokens.toFinset.card : ℚ) / (tokens.length : ℚ) = 1 ↔ tokens.Nodup) ∧
    calculate_lexical_diversity ([] : List String) =
      { ttr := 0, unique_words := 0, total_words := 0, mtld := none } := by
  have hlen : tokens.length ≠ 0 := by
    simpa [List.length_eq_zero] using h
  have hlq : (0 : ℚ) < (tokens.length : ℚ) := by
    exact_mod_cast Nat.pos_of_ne_zero hlen
  have hratio0 : 0 ≤ (tokens.toFinset.card : ℚ) / (tokens.length : ℚ) := by positivity
  have hratio1 : (tokens.toFinset.card : ℚ) / (tokens.length : ℚ) ≤ 1 := by
    rw [div_le_one hlq]
    exact_mod_cast tokens.toFinset_card_le
  have hunfold : calculate_lexical_diversity tokens =
      { ttr := roundTo ((tokens.toFinset.card : ℚ) / (tokens.length : ℚ)) 4
        unique_words := tokens.toFinset.card
        total_words := tokens.length
        mtld := some (roundTo (_calculate_mtld tokens) 2) } := by
    simp only [calculate_lexical_diversity]
    rw [if_neg hlen]
  refine ⟨by rw [hunfold]; rfl, by rw [hunfold], by rw [hunfold], by rw [hunfold],
    ?_, ?_, ?_, ?_, rfl⟩
  · rw [hunfold]
    exact roundTo_nonneg 4 hratio0
  · rw [hunfold]
    exact roundTo_le_one 4 hratio1
  · intro hnd
    rw [hunfold]
    show roundTo _ 4 = 1
    rw [List.toFinset_card_of_nodup hnd, div_self (ne_of_gt hlq)]
    exact roundTo_one_four
  · constructor
    · intro he
      rw [div_eq_one_iff_eq (ne_of_gt hlq)] at he
      have h2 : tokens.toFinset.card = tokens.length := by exact_mod_cast he
      exact (toFinset_card_eq_length_iff tokens).mp h2
    · intro hnd
      rw [List.toFinset_card_of_nodup hnd]
      exact div_self (ne_of_gt hlq)

/-- C5 witness: the amended statement instantiated at a one-token list. -/
theorem C5_lexical_diversity_witness :
    ((calculate_lexical_diversity (["a"] : List String)).mtld).isSome = true ∧
    (calculate_lexical_diversity (["a"] : List String)).unique_words =
      (["a"] : List String).toFinset.card ∧
    (calculate_lexical_diversity (["a"] : List String)).total_words =
      (["a"] : List String).length ∧
    (calculate_lexical_diversity (["a"] : List String)).ttr =
      roundTo (((["a"] : List String).toFinset.card : ℚ)
        / ((["a"] : List String).length : ℚ)) 4 ∧
    0 ≤ (calculate_lexical_diversity (["a"] : List String)).ttr ∧
    (calculate_lexical_diversity (["a"] : List String)).ttr ≤ 1 ∧
    ((["a"] : List String).Nodup →
      (calculate_lexical_diversity (["a"] : List String)).ttr = 1) ∧
    (((["a"] : List String).toFinset.card : ℚ) / ((["a"] : List String).length : ℚ) = 1 ↔
      (["a"] : List String).Nodup) ∧
    calculate_lexical_diversity ([] : List String) =
      { ttr := 0, unique_words := 0, total_words := 0, mtld := none } :=
  C5_lexical_diversity ["a"] (by decide)

/-- C6: calculate_vocabulary_overlap computes Jaccard as intersection over
union rounded to 4 decimals with fallback 0 for an empty union, and the two
directional overlap percentages with fallback 0 for an empty vocabulary and
rounding to 2 decimals; the concrete three-word scenario of the spec holds
with shared 2, Jaccard one half and both percentages 66.67. -/
theorem C6_vocabulary_overlap :
    (∀ tokens1 tokens2 : List String,
      (calculate_vocabulary_overlap tokens1 tokens2).jaccard_similarity =
        (if tokens1.toFinset ∪ tokens2.toFinset = ∅ then 0
         else roundTo (((tokens1.toFinset ∩ tokens2.toFinset).card : ℚ)
            / (((tokens1.toFinset ∪ tokens2.toFinset).card : ℕ) : ℚ)) 4) ∧
      (calculate_vocabulary_overlap tokens1 tokens2).overlap_percentage_first =
        (if tokens1.toFinset = ∅ then 0
         else roundTo (((tokens1.toFinset ∩ tokens2.toFinset).card : ℚ)
            / (tokens1.toFinset.card : ℚ) * 100) 2) ∧
      (calculate_vocabulary_overlap tokens1 tokens2).overlap_percentage_second =
        (if tokens2.toFinset = ∅ then 0
         else roundTo (((tokens1.toFinset ∩ tokens2.toFinset).card : ℚ)
            / (tokens2.toFinset.card : ℚ) * 100) 2)) ∧
    (calculate_vocabulary_overlap ["good", "truth", "form"]
      ["truth", "form", "virtue"]).shared_words = 2 ∧
    (calculate_vocabulary_overlap ["good", "truth", "form"]
      ["truth", "form", "virtue"]).jaccard_similarity = 1/2 ∧
    (calculate_vocabulary_overlap ["good", "truth", "form"]
      ["truth", "form", "virtue"]).overlap_percentage_first = 6667/100 ∧
    (calculate_vocabulary_overlap ["good", "truth", "form"]
      ["truth", "form", "virtue"]).overlap_percentage_second = 6667/100 := by
  refine ⟨?_, by decide, ?_, ?_, ?_⟩
  · intro tokens1 tokens2
    refine ⟨?_, ?_, ?_⟩
    · simp only [calculate_vocabulary_overlap]
      rw [apply_ite (fun q => roundTo q 4), roundTo_zero]
    · simp only [calculate_vocabulary_overlap]
    · simp only [calculate_vocabulary_overlap]
  · simp only [calculate_vocabulary_overlap]
    rw [if_neg (by decide)]
    rw [show ((["good", "truth", "form"] : List String).toFinset ∩
        (["truth", "form", "virtue"] : List String).toFinset).card = 2 from by decide]
    rw [show ((["good", "truth", "form"] : List String).toFinset ∪
        (["truth", "form", "virtue"] : List String).toFinset).card = 4 from by decide]
    norm_num [roundTo, rhe]
  · simp only [calculate_vocabulary_overlap]
    rw [if_neg (by decide)]
    rw [show ((["good", "truth", "form"] : List String).toFinset ∩
        (["truth", "form", "virtue"] : List String).toFinset).card = 2 from by decide]
    rw [show ((["good", "truth", "form"] : List String).toFinset).card = 3 from by decide]
    norm_num [roundTo, rhe]
  · simp only [calculate_vocabulary_overlap]
    rw [if_neg (by decide)]
    rw [show ((["good", "truth", "form"] : List String).toFinset ∩
        (["truth", "form", "virtue"] : List String).toFinset).card = 2 from by decide]
    rw [show ((["truth", "form", "virtue"] : List String).toFinset).card = 3 from by decide]
    norm_num [roundTo, rhe]

/-- C7: the shared count and Jaccard similarity of
calculate_vocabulary_overlap are symmetric in the two arguments, the first
directional percentage of one order equals the second directional percentage
of the swapped order and conversely, while the two directional percentages
of one single call differ in general, witnessed concretely. -/
theorem C7_overlap_symmetry :
    (∀ A B : List String,
      (calculate_vocabulary_overlap A B).shared_words =
        (calculate_vocabulary_overlap B A).shared_words ∧
      (calculate_vocabulary_overlap A B).jaccard_similarity =
        (calculate_vocabulary_overlap B A).jaccard_similarity ∧
      (calculate_vocabulary_overlap A B).overlap_percentage_first =
        (calculate_vocabulary_overlap B A).overlap_percentage_second ∧
      (calculate_vocabulary_overlap A B).overlap_percentage_second =
        (calculate_vocabulary_overlap B A).overlap_percentage_first) ∧
    (calculate_vocabulary_overlap ["x"] ["x", "y"]).overlap_percentage_first ≠
      (calculate_vocabulary_overlap ["x"] ["x", "y"]).overlap_percentage_second := by
  constructor
  · intro A B
    simp only [calculate_vocabulary_overlap]
    rw [Finset.inter_comm B.toFinset A.toFinset, Finset.union_comm B.toFinset A.toFinset]
    exact ⟨rfl, rfl, rfl, rfl⟩
  · simp only [calculate_vocabulary_overlap]
    rw [if_neg (by decide), if_neg (by decide)]
    rw [show ((["x"] : List String).toFinset ∩
        (["x", "y"] : List String).toFinset).card = 1 from by decide]
    rw [show ((["x"] : List String).toFinset).card = 1 from by decide]
    rw [show ((["x", "y"] : List String).toFinset).card = 2 from by decide]
    norm_num [roundTo, rhe]

/-- C8: both descriptive-statistics operations return the empty record
(embedded as none) on empty input, without raising. -/
theorem C8_empty_stats :
    calculate_sentence_stats [] = none ∧ calculate_word_stats [] = none :=
  ⟨rfl, rfl⟩

theorem orderedPairs_length (ids : List String) :
    (orderedPairs ids).length = ids.length.choose 2 := by
  induction ids with
  | nil => rfl
  | cons x rest ih =>
    simp only [orderedPairs, List.length_append, List.length_map, List.length_cons]
    rw [Nat.choose_succ_succ, Nat.choose_one_right, ih]

theorem orderedPairs_no_self : ∀ ids : List String, ids.Nodup →
    ∀ p ∈ orderedPairs ids, p.1 ≠ p.2 := by
  intro ids
  induction ids with
  | nil =>
    intro _ p hp
    simp [orderedPairs] at hp
  | cons x rest ih =>
    intro hnd p hp
    have hx := List.nodup_cons.mp hnd
    rcases List.mem_append.mp hp with h1 | h2
    · rcases List.mem_map.mp h1 with ⟨y, hy, he⟩
      subst he
      intro hxy
      have hxy2 : x = y := hxy
      exact hx.1 (hxy2 ▸ hy)
    · exact ih hx.2 p h2

/-- C9 counterexample: four distinct identifiers whose derived pair keys
collide (the key of the pair of the first and the fourth equals the key of
the pair of the second and the third), so the comparison dictionary holds 5
entries instead of the claimed 4 choose 2 = 6. -/
theorem C9_counterexample :
    (["a", "a vs a", "a vs a vs a", "a vs a vs a vs a"] : List String).Nodup ∧
    (["a", "a vs a", "a vs a vs a", "a vs a vs a vs a"] : List String).length = 4 ∧
    matrixSize ["a", "a vs a", "a vs a vs a", "a vs a vs a vs a"] = 5 ∧
    matrixSize ["a", "a vs a", "a vs a vs a", "a vs a vs a vs a"] ≠ 4 * (4 - 1) / 2 :=
  ⟨by decide, by decide, by decide, by decide⟩

/-- C9 amended: whenever the derived pair keys are pairwise distinct (in
particular for ordinary identifiers that do not embed the separator), the
comparison matrix of n documents has exactly n(n-1)/2 entries, namely one
key per position pair, and with distinct identifiers no visited pair is a
self-pair. -/
theorem C9_matrix_complete (ids : List String) (h : (matrixKeys ids).Nodup) :
    matrixSize ids = ids.length * (ids.length - 1) / 2 ∧
    (matrixKeys ids).length = ids.length * (ids.length - 1) / 2 ∧
    (ids.Nodup → ∀ p ∈ orderedPairs ids, p.1 ≠ p.2) := by
  have hlen : (matrixKeys ids).length = ids.length.choose 2 := by
    unfold matrixKeys
    rw [List.length_map, orderedPairs_length]
  have hch : ids.length.choose 2 = ids.length * (ids.length - 1) / 2 :=
    Nat.choose_two_right ids.length
  refine ⟨?_, by rw [hlen, hch], fun hnd => orderedPairs_no_self ids hnd⟩
  unfold matrixSize
  rw [List.toFinset_card_of_nodup h, hlen, hch]

/-- C9 witness: the amended statement at three plain identifiers, whose six
derived keys are distinct. -/
theorem C9_matrix_complete_witness :
    matrixSize ["a", "b", "c"] =
      (["a", "b", "c"] : List String).length *
        ((["a", "b", "c"] : List String).length - 1) / 2 ∧
    (matrixKeys ["a", "b", "c"]).length =
      (["a", "b", "c"] : List String).length *
        ((["a", "b", "c"] : List String).length - 1) / 2 :=
  ⟨(C9_matrix_complete ["a", "b", "c"] (by decide)).1,
   (C9_matrix_complete ["a", "b", "c"] (by decide)).2.1⟩

/-- C10: the overlap counts partition each vocabulary: shared plus
unique-to-first is the first vocabulary size, shared plus unique-to-second
is the second vocabulary size, and the union size (the Jaccard denominator)
is shared plus unique-to-first plus unique-to-second. -/
theorem C10_overlap_partition (tokens1 tokens2 : List String) :
    (calculate_vocabulary_overlap tokens1 tokens2).shared_words
        + (calculate_vocabulary_overlap tokens1 tokens2).unique_to_first
      = tokens1.toFinset.card ∧
    (calculate_vocabulary_overlap tokens1 tokens2).shared_words
        + (calculate_vocabulary_overlap tokens1 tokens2).unique_to_second
      = tokens2.toFinset.card ∧
    (tokens1.toFinset ∪ tokens2.toFinset).card
      = (calculate_vocabulary_overlap tokens1 tokens2).shared_words
        + (calculate_vocabulary_overlap tokens1 tokens2).unique_to_first
        + (calculate_vocabulary_overlap tokens1 tokens2).unique_to_second := by
  simp only [calculate_vocabulary_overlap]
  have h1 := Finset.card_inter_add_card_sdiff tokens1.toFinset tokens2.toFinset
  have h2 := Finset.card_inter_add_card_sdiff tokens2.toFinset tokens1.toFinset
  have h3 := Finset.card_union_add_card_inter tokens1.toFinset tokens2.toFinset
  rw [Finset.inter_comm tokens2.toFinset tokens1.toFinset] at h2
  exact ⟨h1, h2, by omega⟩
